import Mathlib

/-!
Verification development for the core-native module runtime:
shallow embedding of the registrar, action pipeline, diff-tracked
state mutation and the two logger variants, with proofs of the
behavioural properties stated in the specification.
-/

mutual

/-- JavaScript-style values stored in the state tree. -/
inductive JSValue where
  | undefined
  | null
  | bool (b : Bool)
  | num (n : Int)
  | str (s : String)
  | obj (fields : JSFields)

/-- Field list of a JavaScript object, in property-insertion order. -/
inductive JSFields where
  | nil
  | cons (key : String) (value : JSValue) (rest : JSFields)

end

mutual

/-- Boolean equality on JS values. -/
def JSValue.beq : JSValue → JSValue → Bool
  | .undefined, .undefined => true
  | .null, .null => true
  | .bool a, .bool b => a == b
  | .num a, .num b => a == b
  | .str a, .str b => a == b
  | .obj a, .obj b => JSFields.beq a b
  | _, _ => false

/-- Boolean equality on JS object field lists. -/
def JSFields.beq : JSFields → JSFields → Bool
  | .nil, .nil => true
  | .cons k v r, .cons k' v' r' => k == k' && JSValue.beq v v' && JSFields.beq r r'
  | _, _ => false

end

mutual

theorem JSValue.beq_iff_value : ∀ a b : JSValue, JSValue.beq a b = true ↔ a = b
  | .undefined, .undefined => by simp [JSValue.beq]
  | .null, .null => by simp [JSValue.beq]
  | .bool a, .bool b => by simp [JSValue.beq]
  | .num a, .num b => by simp [JSValue.beq]
  | .str a, .str b => by simp [JSValue.beq]
  | .obj a, .obj b => by simp [JSValue.beq, JSFields.beq_iff_fields a b]
  | .undefined, .null | .undefined, .bool _ | .undefined, .num _ | .undefined, .str _ | .undefined, .obj _
  | .null, .undefined | .null, .bool _ | .null, .num _ | .null, .str _ | .null, .obj _
  | .bool _, .undefined | .bool _, .null | .bool _, .num _ | .bool _, .str _ | .bool _, .obj _
  | .num _, .undefined | .num _, .null | .num _, .bool _ | .num _, .str _ | .num _, .obj _
  | .str _, .undefined | .str _, .null | .str _, .bool _ | .str _, .num _ | .str _, .obj _
  | .obj _, .undefined | .obj _, .null | .obj _, .bool _ | .obj _, .num _ | .obj _, .str _ => by
      simp [JSValue.beq]

theorem JSFields.beq_iff_fields : ∀ a b : JSFields, JSFields.beq a b = true ↔ a = b
  | .nil, .nil => by simp [JSFields.beq]
  | .nil, .cons _ _ _ => by simp [JSFields.beq]
  | .cons _ _ _, .nil => by simp [JSFields.beq]
  | .cons k v r, .cons k' v' r' => by
      simp [JSFields.beq, JSValue.beq_iff_value v v', JSFields.beq_iff_fields r r', and_assoc]

end

instance : DecidableEq JSValue := fun a b =>
  decidable_of_iff (JSValue.beq a b = true) (JSValue.beq_iff_value a b)

instance : DecidableEq JSFields := fun a b =>
  decidable_of_iff (JSFields.beq a b = true) (JSFields.beq_iff_fields a b)

/-- JavaScript truthiness of a value, as used by `if (!x)` checks. -/
def JSValue.truthy : JSValue → Bool
  | .undefined => false
  | .null => false
  | .bool b => b
  | .num n => n != 0
  | .str s => s != ""
  | .obj _ => true

/-- Association map with string keys, modelling a JS object/dictionary. -/
abbrev StrMap (α : Type) := List (String × α)

/-- Property lookup on a JS object: first binding for the key, if any. -/
def lookupS {α : Type} : StrMap α → String → Option α
  | [], _ => none
  | (k', v) :: rest, k => if k' = k then some v else lookupS rest k

/-- Property write on a JS object: updates the first binding in place,
or appends a new binding (JS property-insertion order). -/
def setObj {α : Type} : StrMap α → String → α → StrMap α
  | [], k, v => [(k, v)]
  | (k', v') :: rest, k, v => if k' = k then (k', v) :: rest else (k', v') :: setObj rest k v

/-- Lookup with a default, modelling JS property access (`undefined` when absent). -/
def lookupD {α : Type} (m : StrMap α) (k : String) (dflt : α) : α :=
  (lookupS m k).getD dflt

/-- Exception taxonomy. Modelled from the spec (§7): `Exception.ts` is not among
the provided sources; each variant's data fields are those read by the logging
code (`message`, and per kind: status code / request URL / optional server error
code and id, component stack, serialized error object). -/
inductive ExceptionV where
  | networkConnection (message : String)
  | api (message : String) (statusCode : Int) (requestURL : String)
      (errorCode : Option String) (errorId : Option String)
  | reactLifecycle (message : String) (componentStack : String)
  | runtime (message : String) (errorObject : String)
  | other (message : String)
deriving DecidableEq

/-- Redux actions flowing through the store.
`app` is the plain `{type, payload}` descriptor produced by the synthesized
action creators (`Action<P>` in the source). `setSt` and `err` are the shapes
of `setStateAction(name, state, description)` and
`errorAction(error, actionName)`. Modelled from the spec (§6) for the two
latter, since `reducer.ts` is not among the provided sources: the error action
carries the exception together with the original action type; the set-state
action carries the module name, the replacement slice value and a description. -/
inductive ReduxAction where
  | app (type : String) (payload : List JSValue)
  | setSt (moduleName : String) (value : JSValue) (description : String)
  | err (e : ExceptionV) (actionName : String)
deriving DecidableEq

/-- Handler-table entry: `method.bind(module)` is identified by the module
instance (its id) together with the method name. -/
structure HandlerRef where
  moduleId : Nat
  methodName : String
deriving DecidableEq

/-- Global app singleton state: the `app` branch of the store state
(module-name keyed state tree), the global action-handler table, and the
trace of every action dispatched to the store. -/
structure AppModel where
  appState : StrMap JSValue
  actionHandlers : StrMap HandlerRef
  dispatched : List ReduxAction


/-- Store dispatch. Modelled from the spec (§3, §6): a `setStateAction`
replaces the named module's slice wholesale in the state tree (`reducer.ts`
is not among the provided sources); every dispatched action is recorded in
order. -/
def dispatch (a : ReduxAction) (app : AppModel) : AppModel :=
  match a with
  | .setSt name v _ =>
      { app with appState := setObj app.appState name v, dispatched := app.dispatched ++ [a] }
  | _ => { app with dispatched := app.dispatched ++ [a] }

/-- Own property of a module instance's prototype: its name and whether its
value is a `Function` (the `module[propertyName] instanceof Function` test). -/
structure OwnProp where
  name : String
  isFunction : Bool
deriving DecidableEq

/-- Module instance as seen by the registrar: instance identity, `name`,
`initialState`, and the own properties of its prototype in
`Object.getOwnPropertyNames` order. -/
structure ModuleDef where
  id : Nat
  name : String
  initialState : JSValue
  ownProps : List OwnProp


/-- Embedding of `getKeys` (`module.ts`): the own property names of the
module's prototype whose value is a `Function`, excluding `"constructor"`. -/
def getKeys (m : ModuleDef) : List String :=
  (m.ownProps.filter (fun p => p.isFunction && p.name != "constructor")).map (·.name)

/-- Embedding of `register` (`module.ts`): seeds the state tree with
`initialState` when `!app.store.getState().app[moduleName]` (a JS truthiness
test), then for each key of `getKeys` writes the bound method into the global
handler table under `"<name>/<key>"` and records an action creator for that
key. Returns the updated app singleton and the synthesized creator map. -/
def register (m : ModuleDef) (app : AppModel) :
    AppModel × StrMap (List JSValue → ReduxAction) :=
  let app1 :=
    if (lookupD app.appState m.name .undefined).truthy then app
    else dispatch (.setSt m.name m.initialState ("@@" ++ m.name ++ "/@@init")) app
  (getKeys m).foldl
    (fun acc k =>
      ({ acc.1 with
          actionHandlers := setObj acc.1.actionHandlers (m.name ++ "/" ++ k) ⟨m.id, k⟩ },
        setObj acc.2 k (fun payload => .app (m.name ++ "/" ++ k) payload)))
    (app1, [])

/-- Observable steps of an action handler's coroutine (`SagaIterator`): it can
`put` an action to the store, or raise a failure at that point (whereupon the
rest of the generator body is not reached). -/
inductive SagaStep where
  | putEff (a : ReduxAction)
  | failWith (e : ExceptionV)
deriving DecidableEq

/-- Runs a handler coroutine body: the actions it puts, in order, up to its
first raised failure (if any), and that failure. -/
def runSaga : List SagaStep → List ReduxAction × Option ExceptionV
  | [] => ([], none)
  | .putEff a :: rest =>
      let r := runSaga rest
      (a :: r.1, r.2)
  | .failWith e :: _ => ([], some e)

/-- Embedding of `executeAction` (`module.ts`): drives `yield* handler(...)`
inside a try/catch; a failure raised anywhere in the body is caught and
converted into a single `errorAction(error, actionName)` put, and nothing is
rethrown to the caller (the second component is the failure that escapes
`executeAction` itself). -/
def executeAction (actionName : String) (handlerBody : List SagaStep) :
    List ReduxAction × Option ExceptionV :=
  match runSaga handlerBody with
  | (effs, none) => (effs, none)
  | (effs, some e) => (effs ++ [.err e actionName], none)

/-- Counts the error actions in a list of actions. -/
def countErrActions : List ReduxAction → Nat
  | [] => 0
  | .err _ _ :: rest => countErrActions rest + 1
  | _ :: rest => countErrActions rest

/-- Outcome of an immer `produce(original, recipe)` call: the resulting value,
and whether that result is reference-equal to `original` (`sameRef`). Immer
returns the original object exactly when the recipe performed no effective
modification of the draft, and a fresh object otherwise, so the source guard
`newState !== originalState` is the negation of `sameRef`. An updater is
modelled by the produce outcome it induces on each original value. -/
structure ProduceResult where
  value : JSValue
  sameRef : Bool
deriving DecidableEq

/-- Immer `produce` applied to an updater modelled as above. -/
def produce (original : JSValue) (updater : JSValue → ProduceResult) : ProduceResult :=
  updater original

/-- Embedding of the updater branch of `Module.setState` (`Module.tsx`,
production mode): reads the module's current slice, runs it through `produce`,
and dispatches a `setStateAction` with the produced value exactly when the
result is not reference-equal to the original slice. In development mode the
only difference is that the description string additionally carries the
dot-joined changed paths, which no property here depends on. -/
def setStateUpdater (name : String) (u : JSValue → ProduceResult) (app : AppModel) : AppModel :=
  let originalState := lookupD app.appState name .undefined
  let res := produce originalState u
  if res.sameRef then app
  else dispatch (.setSt name res.value ("@@" ++ name ++ "/setState")) app

/-- Field lookup on a JS object's field list. -/
def fieldsLookup : JSFields → String → Option JSValue
  | .nil, _ => none
  | .cons k v r, key => if k = key then some v else fieldsLookup r key

/-- Whether a JS object has the given own property. -/
def fieldsHas (f : JSFields) (key : String) : Bool :=
  (fieldsLookup f key).isSome

/-- Field write on a JS object: updates in place or appends. -/
def fieldsSet : JSFields → String → JSValue → JSFields
  | .nil, key, v => .cons key v .nil
  | .cons k v' r, key, v =>
      if k = key then .cons k v r else .cons k v' (fieldsSet r key v)

/-- The value of `Object.assign(base, p)`: every field of `p` written onto
`base` in order. -/
def fieldsAssign : JSFields → JSFields → JSFields
  | base, .nil => base
  | base, .cons k v r => fieldsAssign (fieldsSet base k v) r

/-- Whether `Object.assign(draft, p)` marks the immer draft as modified.
Immer's set trap leaves the draft unmodified only for a write whose value is
identical to the base's value for that property and which does not add a new
`undefined`-valued property; every write is compared against the original
base object, and once modified the draft stays modified. -/
def assignModifies (base : JSFields) : JSFields → Bool
  | .nil => false
  | .cons k v r =>
      (!((fieldsLookup base k).getD .undefined = v && (v != .undefined || fieldsHas base k)))
        || assignModifies base r

/-- The updater `(state) => Object.assign(state, partialState)` used by the
partial-object branch of `setState`, modelled through immer: on an object
slice it yields `Object.assign`'s result, reference-equal to the original
exactly when no write modified the draft; on a primitive slice the recipe's
return value is discarded by the void wrapper, so produce returns the
original. -/
def assignUpdater (p : JSFields) : JSValue → ProduceResult
  | .obj fields =>
      if assignModifies fields p then ⟨.obj (fieldsAssign fields p), false⟩
      else ⟨.obj fields, true⟩
  | v => ⟨v, true⟩

/-- Argument of `Module.setState`: either an updater function or a
partial-state object (`typeof stateOrUpdater === "function"` discriminates). -/
inductive StateOrUpdater where
  | updaterForm (u : JSValue → ProduceResult)
  | objectForm (p : JSFields)

/-- Embedding of `Module.setState` (`Module.tsx`): the updater branch runs the
diff-tracked mutation; the object branch delegates to the updater branch with
`(state) => Object.assign(state, partialState)`. -/
def setState (name : String) (su : StateOrUpdater) (app : AppModel) : AppModel :=
  match su with
  | .updaterForm u => setStateUpdater name u app
  | .objectForm p => setStateUpdater name (assignUpdater p) app

/-- Definition following the spec's words (§4.1): the partial-object
convenience form is `mutate(original, draft => assign(draft, partial))`,
that is, `setState` applied to the assigning updater. -/
def setStateSpecObjectForm (name : String) (p : JSFields) (app : AppModel) : AppModel :=
  setStateUpdater name (assignUpdater p) app

/-- Result class of a log event. -/
inductive LogResult where
  | ok
  | warn
  | error
deriving DecidableEq

/-- Environment-context entry: a string, or a zero-argument string producer
resolved lazily at append time. -/
inductive ContextVal where
  | strVal (s : String)
  | fnVal (f : Unit → String)

/-- Resolves the environment context into plain strings, calling each
function-valued entry (`typeof value === "string" ? value : value()`). -/
def resolveContext (ctx : StrMap ContextVal) : StrMap String :=
  ctx.map (fun kv => (kv.1, match kv.2 with | .strVal s => s | .fnVal f => f ()))

/-- Log event of `LoggerImpl` (the `Log` interface): creation time in
epoch milliseconds, result class, resolved context, info fields,
`elapsedTime` (zero until the completion callback fires), and the optional
action name and error code. -/
structure LogEvent where
  date : Int
  result : LogResult
  context : StrMap String
  info : StrMap String
  elapsedTime : Int
  action : Option String
  errorCode : Option String
deriving DecidableEq

/-- Mutable state of a `LoggerImpl` instance. -/
structure LoggerState where
  environmentContext : StrMap ContextVal
  logQueue : List LogEvent

/-- Embedding of `LoggerImpl.appendLog`: resolves the context, builds one
event with `elapsedTime` zero, pushes it at the end of the queue, and
returns the handle the completion callback closes over (the queue position
of the new event, standing for the captured event object). -/
def LoggerImpl.appendLog (now : Int) (result : LogResult) (action : Option String)
    (errorCode : Option String) (info : Option (StrMap String)) (st : LoggerState) :
    LoggerState × Nat :=
  let event : LogEvent :=
    { date := now, result, action, errorCode, info := info.getD [],
      context := resolveContext st.environmentContext, elapsedTime := 0 }
  ({ st with logQueue := st.logQueue ++ [event] }, st.logQueue.length)

/-- Invoking the completion callback returned by `appendLog` at time `now`:
the captured event object has its `elapsedTime` overwritten in place with
`now - event.date`; nothing else changes. -/
def invokeLogCallback (st : LoggerState) (idx : Nat) (now : Int) : LoggerState :=
  match st.logQueue[idx]? with
  | none => st
  | some ev => { st with logQueue := st.logQueue.set idx { ev with elapsedTime := now - ev.date } }

/-- Embedding of `LoggerImpl.info`. -/
def LoggerImpl.info (now : Int) (action : String) (inf : Option (StrMap String))
    (st : LoggerState) : LoggerState × Nat :=
  LoggerImpl.appendLog now .ok (some action) none inf st

/-- Embedding of `LoggerImpl.warn`. -/
def LoggerImpl.warn (now : Int) (errorCode : String) (action : Option String)
    (inf : Option (StrMap String)) (st : LoggerState) : LoggerState × Nat :=
  LoggerImpl.appendLog now .warn action (some errorCode) inf st

/-- Embedding of `LoggerImpl.error`. -/
def LoggerImpl.error (now : Int) (errorCode : String) (action : Option String)
    (inf : Option (StrMap String)) (st : LoggerState) : LoggerState × Nat :=
  LoggerImpl.appendLog now .error action (some errorCode) inf st

/-- JS truthiness of an optional string field (`if (exception.errorCode)`). -/
def optStrTruthy : Option String → Bool
  | some s => s != ""
  | none => false

/-- Appends `key: value` to an info object when the optional string is truthy. -/
def addIfTruthy (info : StrMap String) (key : String) (v : Option String) : StrMap String :=
  match v with
  | some s => if s != "" then setObj info key s else info
  | none => info

/-- Embedding of `LoggerImpl.exception`: a `NetworkConnectionException` is
appended as WARN with error code `NETWORK_FAILURE`; an `APIException` as ERROR
with code `API_ERROR:<statusCode>` and info `errorMessage`/`requestURL` plus
the server error code and id when present; lifecycle and runtime exceptions as
ERROR with their codes, a stack trace and the serialized app state
(`appStateJson` stands for `JSON.stringify(app.store.getState().app)`);
anything else as ERROR with code `"ERROR"`. -/
def LoggerImpl.exception (now : Int) (appStateJson : String) (e : ExceptionV)
    (st : LoggerState) : LoggerState × Nat :=
  match e with
  | .networkConnection msg =>
      LoggerImpl.appendLog now .warn none (some "NETWORK_FAILURE") (some [("errorMessage", msg)]) st
  | .api msg s url ec ei =>
      let info := addIfTruthy (addIfTruthy [("errorMessage", msg), ("requestURL", url)] "errorCode" ec) "errorId" ei
      LoggerImpl.appendLog now .error none (some ("API_ERROR:" ++ toString s)) (some info) st
  | .reactLifecycle msg stack =>
      LoggerImpl.appendLog now .error none (some "LIFECYCLE_ERROR")
        (some [("errorMessage", msg), ("stackTrace", stack), ("appState", appStateJson)]) st
  | .runtime msg errObj =>
      LoggerImpl.appendLog now .error none (some "JS_ERROR")
        (some [("errorMessage", msg), ("stackTrace", errObj), ("appState", appStateJson)]) st
  | .other msg =>
      LoggerImpl.appendLog now .error none (some "ERROR") (some [("errorMessage", msg)]) st

/-- One call to the public `LoggerImpl` surface. -/
inductive LoggerCall where
  | infoC (action : String) (inf : Option (StrMap String))
  | warnC (errorCode : String) (action : Option String) (inf : Option (StrMap String))
  | errorC (errorCode : String) (action : Option String) (inf : Option (StrMap String))
  | exceptionC (appStateJson : String) (e : ExceptionV)

/-- Runs one public `LoggerImpl` call. -/
def LoggerImpl.run (c : LoggerCall) (now : Int) (st : LoggerState) : LoggerState × Nat :=
  match c with
  | .infoC action inf => LoggerImpl.info now action inf st
  | .warnC ec action inf => LoggerImpl.warn now ec action inf st
  | .errorC ec action inf => LoggerImpl.error now ec action inf st
  | .exceptionC appJson e => LoggerImpl.exception now appJson e st

/-- Log event of the `EventLogger` variant (the `EventLog` interface): same
fields plus a hex id drawn from a counter. -/
structure EvLogEvent where
  id : String
  date : Int
  result : LogResult
  context : StrMap String
  info : StrMap String
  elapsedTime : Int
  action : Option String
  errorCode : Option String
deriving DecidableEq

/-- Mutable state of an `EventLogger` instance. -/
structure EvLoggerState where
  environmentContext : StrMap ContextVal
  uuidCounter : Nat
  logQueue : List EvLogEvent

/-- Hexadecimal rendering of a counter value (`uuidCounter.toString(16)`). -/
def natToHex (n : Nat) : String :=
  String.mk (Nat.toDigits 16 n)

/-- Embedding of `EventLogger.appendLog`: one event is built (the first
argument becomes `action` when the result is OK and `errorCode` otherwise),
pushed at the end of the queue, and the callback handle is returned. -/
def EventLogger.appendLog (now : Int) (actionOrErrorCode : String) (result : LogResult)
    (info : StrMap String) (st : EvLoggerState) : EvLoggerState × Nat :=
  let event : EvLogEvent :=
    { id := natToHex st.uuidCounter, date := now, result, info,
      context := resolveContext st.environmentContext, elapsedTime := 0,
      action := if result = .ok then some actionOrErrorCode else none,
      errorCode := if result = .ok then none else some actionOrErrorCode }
  ({ st with uuidCounter := st.uuidCounter + 1, logQueue := st.logQueue ++ [event] },
    st.logQueue.length)

/-- Invoking the completion callback returned by `EventLogger.appendLog`. -/
def EventLogger.invokeCallback (st : EvLoggerState) (idx : Nat) (now : Int) : EvLoggerState :=
  match st.logQueue[idx]? with
  | none => st
  | some ev => { st with logQueue := st.logQueue.set idx { ev with elapsedTime := now - ev.date } }

/-- Argument of the overloaded `EventLogger.log`. -/
inductive EvLogArg where
  | strArg (action : String) (inf : StrMap String)
  | excArg (e : ExceptionV)

/-- Embedding of `EventLogger.log`: a string argument is appended as OK with
its info; a `NetworkConnectionException` as WARN `NETWORK_FAILURE`; an
`APIException` as ERROR `API_ERROR:<statusCode>` with `errorMessage`,
`requestURL` and `statusCode` info fields; lifecycle and runtime exceptions as
ERROR with stack and serialized app state; anything else as ERROR with the
generic code `"error"`. -/
def EventLogger.log (now : Int) (appStateJson : String) (arg : EvLogArg)
    (st : EvLoggerState) : EvLoggerState × Nat :=
  match arg with
  | .strArg action inf => EventLogger.appendLog now action .ok inf st
  | .excArg (.networkConnection msg) =>
      EventLogger.appendLog now "NETWORK_FAILURE" .warn [("errorMessage", msg)] st
  | .excArg (.api msg s url _ _) =>
      EventLogger.appendLog now ("API_ERROR:" ++ toString s) .error
        [("errorMessage", msg), ("requestURL", url), ("statusCode", toString s)] st
  | .excArg (.reactLifecycle msg stack) =>
      EventLogger.appendLog now "LIFECYCLE_ERROR" .error
        [("errorMessage", msg), ("stackTrace", stack), ("appState", appStateJson)] st
  | .excArg (.runtime msg errObj) =>
      EventLogger.appendLog now "JS_ERROR" .error
        [("errorMessage", msg), ("stackTrace", errObj), ("appState", appStateJson)] st
  | .excArg (.other msg) =>
      EventLogger.appendLog now "error" .error [("errorMessage", msg)] st


/-- The seven lifecycle-hook member names of `ModuleLifecycleListener`. -/
def lifecycleHookNames : List String :=
  ["onEnter", "onDestroy", "onTick", "onAppActive", "onAppInactive", "onFocus", "onBlur"]

/-- Definition following the spec's words (§4.3): the members the registrar is
said to turn into actions are the module's own callable members, excluding the
constructor, the seven lifecycle-hook names and the designated error-hook name
`onError`. Kept for comparison against the source-derived `getKeys`. -/
def specRegisteredKeys (m : ModuleDef) : List String :=
  (m.ownProps.filter (fun p =>
    p.isFunction && p.name != "constructor" && !(lifecycleHookNames.contains p.name)
      && p.name != "onError")).map (·.name)

/-- Empty app singleton, as at process start. -/
def app0 : AppModel := ⟨[], [], []⟩

/-- Example module `dup` (instance 1) with one action method `foo`. -/
def mDup1 : ModuleDef := ⟨1, "dup", .obj .nil, [⟨"constructor", true⟩, ⟨"foo", true⟩]⟩

/-- Second, distinct module instance also named `dup`, also with `foo`. -/
def mDup2 : ModuleDef := ⟨2, "dup", .obj .nil, [⟨"constructor", true⟩, ⟨"foo", true⟩]⟩

/-- Example module whose subclass overrides the lifecycle hook `onEnter`
(so `onEnter` is an own property of its prototype) besides an action `foo`. -/
def mHook : ModuleDef := ⟨3, "m", .obj .nil, [⟨"constructor", true⟩, ⟨"onEnter", true⟩, ⟨"foo", true⟩]⟩

/-- Example module named `m` whose initial state is the number 7. -/
def mNum : ModuleDef := ⟨4, "m", .num 7, [⟨"constructor", true⟩]⟩

/-- App singleton whose state tree already has a slice for `m`, holding the
JS-falsy value `0`. -/
def appFalsy : AppModel := ⟨[("m", .num 0)], [], []⟩

/-- Empty `LoggerImpl` state (no context, empty queue). -/
def st0 : LoggerState := ⟨[], []⟩

/-- Empty `EventLogger` state. -/
def est0 : EvLoggerState := ⟨[], 0, []⟩

/-- Example queued log event used to exercise the completion callback. -/
def evW : LogEvent := ⟨100, .ok, [], [], 0, some "x", none⟩

/-- Logger state holding exactly `evW`. -/
def stW : LoggerState := ⟨[], [evW]⟩

/-- Example queued event for the `EventLogger` callback. -/
def evW2 : EvLogEvent := ⟨"0", 100, .ok, [], [], 0, some "x", none⟩

/-- `EventLogger` state holding exactly `evW2`. -/
def estW : EvLoggerState := ⟨[], 1, [evW2]⟩

/-! Helper lemmas shared by several claim proofs. -/

theorem lookupS_setObj_self {α : Type} (m : StrMap α) (k : String) (v : α) :
    lookupS (setObj m k v) k = some v := by
  induction m with
  | nil => simp [setObj, lookupS]
  | cons kv rest ih =>
      by_cases h : kv.1 = k
      · simp [setObj, lookupS, h]
      · simp [setObj, lookupS, h, ih]

theorem lookupS_setObj_ne {α : Type} (m : StrMap α) (k k' : String) (v : α) (h : k ≠ k') :
    lookupS (setObj m k v) k' = lookupS m k' := by
  induction m with
  | nil => simp [setObj, lookupS, h]
  | cons kv rest ih =>
      by_cases hk : kv.1 = k
      · simp [setObj, lookupS, hk, h]
      · by_cases hk' : kv.1 = k'
        · simp [setObj, lookupS, hk, hk', Ne.symm h]
        · simp [setObj, lookupS, hk, hk', ih]

theorem countErrActions_append (l1 l2 : List ReduxAction) :
    countErrActions (l1 ++ l2) = countErrActions l1 + countErrActions l2 := by
  induction l1 with
  | nil => simp [countErrActions]
  | cons a rest ih => cases a <;> simp [countErrActions, ih] <;> omega

theorem string_append_right_inj (s a b : String) (h : s ++ a = s ++ b) : a = b := by
  have hd := congrArg String.data h
  simp [String.data_append] at hd
  exact String.ext hd

theorem getElem?_append_length {α : Type} (l : List α) (a : α) :
    (l ++ [a])[l.length]? = some a :=
  List.getElem?_concat_length l a

theorem set_append_length {α : Type} (l : List α) (a b : α) :
    (l ++ [a]).set l.length b = l ++ [b] := by
  induction l with
  | nil => rfl
  | cons x xs ih => simp [List.set, ih]

/-- C1: for every registered handler and payload, if the handler coroutine
raises at any point, `executeAction` catches the failure, dispatches exactly
one error action carrying the raised error and the original action type after
the handler's own effects, and rethrows nothing to its caller; if the handler
completes without raising, no error action is added. -/
theorem executeAction_error_containment (actionName : String) (handlerBody : List SagaStep) :
    (executeAction actionName handlerBody).2 = none ∧
    (executeAction actionName handlerBody).1 =
      (runSaga handlerBody).1 ++
        (match (runSaga handlerBody).2 with
          | none => []
          | some e => [.err e actionName]) ∧
    countErrActions (executeAction actionName handlerBody).1 =
      countErrActions (runSaga handlerBody).1 +
        (match (runSaga handlerBody).2 with
          | none => 0
          | some _ => 1) := by
  unfold executeAction
  rcases h : runSaga handlerBody with ⟨effs, f⟩
  cases f with
  | none => simp [countErrActions_append, countErrActions]
  | some e => simp [countErrActions_append, countErrActions]

/-- C2: `setState` with an updater dispatches a state-replacement action
exactly when the produced value is not reference-equal to the previous slice
value, and dispatches nothing when the updater changed nothing. -/
theorem setState_suppression (name : String) (u : JSValue → ProduceResult) (app : AppModel) :
    (setStateUpdater name u app).dispatched =
      app.dispatched ++
        (if (produce (lookupD app.appState name .undefined) u).sameRef then []
          else [.setSt name (produce (lookupD app.appState name .undefined) u).value
            ("@@" ++ name ++ "/setState")]) ∧
    ((setStateUpdater name u app).dispatched = app.dispatched ↔
      (produce (lookupD app.appState name .undefined) u).sameRef = true) := by
  unfold setStateUpdater dispatch
  by_cases h : (produce (lookupD app.appState name .undefined) u).sameRef <;> simp [h]

/-- C7: `setState` applied to a partial-state object behaves exactly as
`setState` applied to the updater `draft => Object.assign(draft, partial)`:
the resulting app singleton (state tree and dispatch trace alike) is
identical, which is also the spec's stated convenience-form semantics. -/
theorem setState_objectForm_eq_assign (name : String) (p : JSFields) (app : AppModel) :
    setState name (.objectForm p) app = setState name (.updaterForm (assignUpdater p)) app ∧
    setState name (.objectForm p) app = setStateSpecObjectForm name p app :=
  ⟨rfl, rfl⟩

/-! Lemmas about the registration fold. -/

theorem foldl_register_step_appState (name : String) (mid : Nat) (keys : List String)
    (start : AppModel × StrMap (List JSValue → ReduxAction)) :
    ((keys.foldl (fun acc k =>
        ({ acc.1 with
            actionHandlers := setObj acc.1.actionHandlers (name ++ "/" ++ k) ⟨mid, k⟩ },
          setObj acc.2 k (fun payload => .app (name ++ "/" ++ k) payload))) start).1).appState
      = start.1.appState := by
  induction keys generalizing start with
  | nil => rfl
  | cons a rest ih => simpa using ih _

theorem foldl_register_step_dispatched (name : String) (mid : Nat) (keys : List String)
    (start : AppModel × StrMap (List JSValue → ReduxAction)) :
    ((keys.foldl (fun acc k =>
        ({ acc.1 with
            actionHandlers := setObj acc.1.actionHandlers (name ++ "/" ++ k) ⟨mid, k⟩ },
          setObj acc.2 k (fun payload => .app (name ++ "/" ++ k) payload))) start).1).dispatched
      = start.1.dispatched := by
  induction keys generalizing start with
  | nil => rfl
  | cons a rest ih => simpa using ih _

theorem foldl_register_step_handlers_not_mem (name : String) (mid : Nat) (keys : List String)
    (start : AppModel × StrMap (List JSValue → ReduxAction)) (k : String) (hk : k ∉ keys) :
    lookupS ((keys.foldl (fun acc k =>
        ({ acc.1 with
            actionHandlers := setObj acc.1.actionHandlers (name ++ "/" ++ k) ⟨mid, k⟩ },
          setObj acc.2 k (fun payload => .app (name ++ "/" ++ k) payload))) start).1.actionHandlers)
      (name ++ "/" ++ k)
      = lookupS start.1.actionHandlers (name ++ "/" ++ k) := by
  induction keys generalizing start with
  | nil => rfl
  | cons a rest ih =>
      have hka : k ≠ a := fun hh => hk (hh ▸ List.mem_cons_self a rest)
      have hkr : k ∉ rest := fun hh => hk (List.mem_cons_of_mem a hh)
      have hne : name ++ "/" ++ a ≠ name ++ "/" ++ k := by
        intro hh
        exact hka (string_append_right_inj (name ++ "/") a k hh).symm
      rw [List.foldl_cons, ih _ hkr]
      exact lookupS_setObj_ne _ _ _ _ hne

theorem foldl_register_step_handlers_mem (name : String) (mid : Nat) (keys : List String)
    (k : String) (hk : k ∈ keys) (hnd : keys.Nodup)
    (start : AppModel × StrMap (List JSValue → ReduxAction)) :
    lookupS ((keys.foldl (fun acc k =>
        ({ acc.1 with
            actionHandlers := setObj acc.1.actionHandlers (name ++ "/" ++ k) ⟨mid, k⟩ },
          setObj acc.2 k (fun payload => .app (name ++ "/" ++ k) payload))) start).1.actionHandlers)
      (name ++ "/" ++ k)
      = some ⟨mid, k⟩ := by
  induction keys generalizing start with
  | nil => cases hk
  | cons a rest ih =>
      rw [List.foldl_cons]
      rcases List.mem_cons.mp hk with rfl | hmem
      · have hrest : k ∉ rest := (List.nodup_cons.mp hnd).1
        rw [foldl_register_step_handlers_not_mem _ _ _ _ _ hrest]
        exact lookupS_setObj_self _ _ _
      · exact ih hmem (List.nodup_cons.mp hnd).2 _

theorem foldl_register_step_actions_shape (name : String) (mid : Nat) (keys : List String)
    (start : AppModel × StrMap (List JSValue → ReduxAction))
    (hstart : ∀ k f, lookupS start.2 k = some f →
      f = fun payload => ReduxAction.app (name ++ "/" ++ k) payload) :
    ∀ k f, lookupS ((keys.foldl (fun acc k =>
        ({ acc.1 with
            actionHandlers := setObj acc.1.actionHandlers (name ++ "/" ++ k) ⟨mid, k⟩ },
          setObj acc.2 k (fun payload => .app (name ++ "/" ++ k) payload))) start).2) k = some f →
      f = fun payload => ReduxAction.app (name ++ "/" ++ k) payload := by
  induction keys generalizing start with
  | nil => exact hstart
  | cons a rest ih =>
      rw [List.foldl_cons]
      apply ih
      intro k f hf
      by_cases hka : k = a
      · subst hka
        rw [show ((fun (acc : AppModel × StrMap (List JSValue → ReduxAction)) k =>
            ({ acc.1 with
                actionHandlers := setObj acc.1.actionHandlers (name ++ "/" ++ k) ⟨mid, k⟩ },
              setObj acc.2 k (fun payload => ReduxAction.app (name ++ "/" ++ k) payload))) start k).2
            = setObj start.2 k (fun payload => ReduxAction.app (name ++ "/" ++ k) payload) from rfl,
          lookupS_setObj_self] at hf
        exact (Option.some.inj hf).symm
      · rw [show ((fun (acc : AppModel × StrMap (List JSValue → ReduxAction)) k =>
            ({ acc.1 with
                actionHandlers := setObj acc.1.actionHandlers (name ++ "/" ++ k) ⟨mid, k⟩ },
              setObj acc.2 k (fun payload => ReduxAction.app (name ++ "/" ++ k) payload))) start a).2
            = setObj start.2 a (fun payload => ReduxAction.app (name ++ "/" ++ a) payload) from rfl,
          lookupS_setObj_ne _ _ _ _ (fun hh => hka hh.symm)] at hf
        exact hstart k f hf

/-- C3 counterexample: two distinct module instances (ids 1 and 2) share the
name `dup`. Registering the second after the first completes normally (the
embedding of `register` is a total function: the source has no failure path
and performs no duplicate-name check) and silently overwrites the handler
table: `dup/foo` maps to module 1's bound method after the first
registration, and to module 2's after the second — refuting that the second
registration fails fast rather than overwriting. -/
theorem register_duplicate_counterexample :
    lookupS ((register mDup1 app0).1).actionHandlers "dup/foo" = some ⟨1, "foo"⟩ ∧
    lookupS ((register mDup2 (register mDup1 app0).1).1).actionHandlers "dup/foo"
      = some ⟨2, "foo"⟩ ∧
    lookupS ((register mDup2 (register mDup1 app0).1).1).appState "dup"
      = some (.obj .nil) := by decide

/-- C3 amended: `register` performs no duplicate-name check and never fails;
registering a second module under an already-registered name completes
normally and overwrites the handler-table entries for every shared qualified
action type with the second module's bound methods (last registration wins). -/
theorem register_duplicate_lastWins (m1 m2 : ModuleDef) (app : AppModel) (k : String)
    (hk : k ∈ getKeys m2) (hnd : (getKeys m2).Nodup) :
    lookupS ((register m2 (register m1 app).1).1).actionHandlers (m2.name ++ "/" ++ k)
      = some ⟨m2.id, k⟩ := by
  unfold register
  exact foldl_register_step_handlers_mem m2.name m2.id (getKeys m2) k hk hnd _

theorem register_duplicate_lastWins_witness :
    lookupS ((register mDup2 (register mDup1 app0).1).1).actionHandlers ("dup" ++ "/" ++ "foo")
      = some ⟨2, "foo"⟩ :=
  register_duplicate_lastWins mDup1 mDup2 app0 "foo" (by decide) (by decide)

/-- C4 counterexample: the state tree already holds a slice for module `m`
(the JS-falsy number `0`, e.g. after an earlier registration and a `setState`
away from `initialState`), yet `register` dispatches the initial-state
seeding action and the slice is reset to `initialState` — the guard is the
JS truthiness test `!app.store.getState().app[moduleName]`, not a presence
test, refuting that a present slice is always left unchanged. -/
theorem register_seed_counterexample :
    lookupS appFalsy.appState "m" = some (.num 0) ∧
    (register mNum appFalsy).1.dispatched = [.setSt "m" (.num 7) "@@m/@@init"] ∧
    lookupS (register mNum appFalsy).1.appState "m" = some (.num 7) := by decide

/-- C4 amended: `register` dispatches the initial-state seeding action exactly
when the current slice for the module name is absent or JS-falsy; when the
slice is truthy (in particular any object slice, however far it was modified
from `initialState`) nothing is dispatched and the state tree is unchanged,
and when it is absent or falsy the slice is (re)seeded with `initialState`. -/
theorem register_seed_truthyGuard (m : ModuleDef) (app : AppModel) :
    (register m app).1.dispatched =
      app.dispatched ++
        (if (lookupD app.appState m.name .undefined).truthy then []
          else [.setSt m.name m.initialState ("@@" ++ m.name ++ "/@@init")]) ∧
    (register m app).1.appState =
      (if (lookupD app.appState m.name .undefined).truthy then app.appState
        else setObj app.appState m.name m.initialState) := by
  unfold register
  by_cases h : (lookupD app.appState m.name .undefined).truthy
  · rw [if_pos h, if_pos h, if_pos h]
    rw [foldl_register_step_dispatched, foldl_register_step_appState]
    simp
  · rw [if_neg h, if_neg h, if_neg h]
    rw [foldl_register_step_dispatched, foldl_register_step_appState]
    simp [dispatch]

/-- C5 counterexample: a module whose prototype carries an overridden
lifecycle hook `onEnter` besides the action method `foo`. At runtime
`getKeys` excludes only `"constructor"`, so it returns `["onEnter", "foo"]`,
not the spec's enumeration `["foo"]`, and `register` installs a handler-table
entry for `m/onEnter` — refuting that an overridden lifecycle hook is never
registered as a dispatchable action. -/
theorem getKeys_hook_counterexample :
    getKeys mHook ≠ specRegisteredKeys mHook ∧
    getKeys mHook = ["onEnter", "foo"] ∧
    specRegisteredKeys mHook = ["foo"] ∧
    lookupS ((register mHook app0).1).actionHandlers "m/onEnter" = some ⟨3, "onEnter"⟩ := by
  decide

/-- C5 amended: the members `register` turns into action creators and
handler-table entries are exactly the module's own callable members excluding
only the constructor; the seven lifecycle-hook names and `onError` are not
excluded at runtime (their exclusion exists only in the static types), so a
hook overridden on the module is registered like any other method. -/
theorem getKeys_excludes_only_constructor (m : ModuleDef) (k : String) :
    k ∈ getKeys m ↔
      ((∃ p ∈ m.ownProps, p.name = k ∧ p.isFunction = true) ∧ k ≠ "constructor") := by
  simp only [getKeys, List.mem_map, List.mem_filter]
  constructor
  · rintro ⟨p, ⟨hp, hf⟩, rfl⟩
    rw [Bool.and_eq_true, bne_iff_ne] at hf
    exact ⟨⟨p, hp, rfl, hf.1⟩, hf.2⟩
  · rintro ⟨⟨p, hp, rfl, hf⟩, hk⟩
    exact ⟨p, ⟨hp, by rw [Bool.and_eq_true, bne_iff_ne]; exact ⟨hf, hk⟩⟩, rfl⟩

/-- C6: every synthesized action creator returned by `register` is the pure
function sending `args` to exactly the descriptor
`{type := "<name>/<method>", payload := args}`; in the embedding a creator is
a plain function from payloads to action descriptors, so evaluating it
touches neither the state tree, the handler table, the dispatch trace nor any
log queue. -/
theorem actionCreator_shape (m : ModuleDef) (app : AppModel) (k : String)
    (f : List JSValue → ReduxAction) (h : lookupS (register m app).2 k = some f)
    (args : List JSValue) :
    f args = .app (m.name ++ "/" ++ k) args := by
  unfold register at h
  have hshape := foldl_register_step_actions_shape m.name m.id (getKeys m) _
    (fun k f hf => absurd hf (by simp [lookupS])) k f h
  rw [hshape]

theorem actionCreator_shape_witness :
    ∃ f, lookupS (register mDup1 app0).2 "foo" = some f ∧
      f [JSValue.num 1] = .app "dup/foo" [JSValue.num 1] :=
  ⟨_, rfl, actionCreator_shape mDup1 app0 "foo" _ rfl [JSValue.num 1]⟩

/-! Logger lemmas. -/

theorem lookupS_addIfTruthy_ne (info : StrMap String) (key k : String) (v : Option String)
    (h : k ≠ key) :
    lookupS (addIfTruthy info k v) key = lookupS info key := by
  cases v with
  | none => rfl
  | some s =>
      by_cases hs : s != ""
      · simp only [addIfTruthy, hs, if_true]
        exact lookupS_setObj_ne _ _ _ _ h
      · simp [addIfTruthy, hs]

/-- C8 counterexample: logging an `APIException` with status 404 through
`LoggerImpl.exception` appends one ERROR event whose errorCode is
`API_ERROR:404` and whose info carries `requestURL` — but no `statusCode`
field at all, refuting `info.statusCode = "404"` for this exception path
(the `EventLogger` variant is the one that records `statusCode`). -/
theorem loggerImpl_api_statusCode_counterexample :
    (LoggerImpl.exception 0 "appstate" (.api "Not Found" 404 "https://a/b" none none) st0).1.logQueue
      = [⟨0, .error, [], [("errorMessage", "Not Found"), ("requestURL", "https://a/b")], 0,
          none, some "API_ERROR:404"⟩] ∧
    lookupS (((LoggerImpl.exception 0 "appstate" (.api "Not Found" 404 "https://a/b" none none)
        st0).1.logQueue.headD ⟨0, .ok, [], [], 0, none, none⟩).info) "statusCode"
      = none := by decide

/-- C8 amended: for every `APIException` with status `s`, `LoggerImpl.exception`
appends exactly one ERROR event with errorCode `API_ERROR:<s>` and
`info.requestURL` equal to the request URL but no `info.statusCode` field;
the `EventLogger.log` variant appends exactly one ERROR event with the same
errorCode, `info.requestURL`, and `info.statusCode` equal to the decimal
string of `s`; for every `NetworkConnectionException`, both variants append
exactly one WARN event with errorCode `NETWORK_FAILURE`. -/
theorem logger_exception_classification (now : Int) (appJson msg url : String) (s : Int)
    (ec ei : Option String) (st : LoggerState) (est : EvLoggerState) :
    (∃ ev : LogEvent,
      (LoggerImpl.exception now appJson (.api msg s url ec ei) st).1.logQueue
        = st.logQueue ++ [ev] ∧
      ev.result = .error ∧ ev.errorCode = some ("API_ERROR:" ++ toString s) ∧
      lookupS ev.info "requestURL" = some url ∧ lookupS ev.info "statusCode" = none) ∧
    (∃ ev : EvLogEvent,
      (EventLogger.log now appJson (.excArg (.api msg s url ec ei)) est).1.logQueue
        = est.logQueue ++ [ev] ∧
      ev.result = .error ∧ ev.errorCode = some ("API_ERROR:" ++ toString s) ∧
      lookupS ev.info "requestURL" = some url ∧
      lookupS ev.info "statusCode" = some (toString s)) ∧
    (∃ ev : LogEvent,
      (LoggerImpl.exception now appJson (.networkConnection msg) st).1.logQueue
        = st.logQueue ++ [ev] ∧ ev.result = .warn ∧ ev.errorCode = some "NETWORK_FAILURE") ∧
    (∃ ev : EvLogEvent,
      (EventLogger.log now appJson (.excArg (.networkConnection msg)) est).1.logQueue
        = est.logQueue ++ [ev] ∧ ev.result = .warn ∧ ev.errorCode = some "NETWORK_FAILURE") := by
  refine ⟨⟨_, rfl, rfl, rfl, ?_, ?_⟩, ⟨_, rfl, rfl, rfl, ?_, ?_⟩, ⟨_, rfl, rfl, rfl⟩,
    ⟨_, rfl, rfl, rfl⟩⟩
  · show lookupS (addIfTruthy (addIfTruthy [("errorMessage", msg), ("requestURL", url)]
        "errorCode" ec) "errorId" ei) "requestURL" = some url
    rw [lookupS_addIfTruthy_ne _ _ _ _ (by decide), lookupS_addIfTruthy_ne _ _ _ _ (by decide)]
    simp [lookupS]
  · show lookupS (addIfTruthy (addIfTruthy [("errorMessage", msg), ("requestURL", url)]
        "errorCode" ec) "errorId" ei) "statusCode" = none
    rw [lookupS_addIfTruthy_ne _ _ _ _ (by decide), lookupS_addIfTruthy_ne _ _ _ _ (by decide)]
    simp [lookupS]
  · show lookupS [("errorMessage", msg), ("requestURL", url), ("statusCode", toString s)]
        "requestURL" = some url
    simp [lookupS]
  · show lookupS [("errorMessage", msg), ("requestURL", url), ("statusCode", toString s)]
        "statusCode" = some (toString s)
    simp [lookupS]

theorem invokeLogCallback_append (ctx : StrMap ContextVal) (q : List LogEvent)
    (ev : LogEvent) (t : Int) :
    (invokeLogCallback ⟨ctx, q ++ [ev]⟩ q.length t).logQueue
      = q ++ [{ ev with elapsedTime := t - ev.date }] := by
  unfold invokeLogCallback
  rw [getElem?_append_length]
  simp [set_append_length]

theorem evInvokeCallback_append (ctx : StrMap ContextVal) (c : Nat) (q : List EvLogEvent)
    (ev : EvLogEvent) (t : Int) :
    (EventLogger.invokeCallback ⟨ctx, c, q ++ [ev]⟩ q.length t).logQueue
      = q ++ [{ ev with elapsedTime := t - ev.date }] := by
  unfold EventLogger.invokeCallback
  rw [getElem?_append_length]
  simp [set_append_length]

/-- C9: every public logger call (`info`/`warn`/`error`/`exception` on
`LoggerImpl`, and `log` on `EventLogger`) appends exactly one event at the end
of the in-memory queue, created with `elapsedTime` zero and the call-time
timestamp, and returns the completion-callback handle for precisely that
event; invoking the callback later, at time `t`, overwrites that queued
event's `elapsedTime` with the wall-clock delta `t - now` and changes nothing
else, while never invoking it leaves the queued `elapsedTime` at zero. -/
theorem logger_append_and_timing (c : LoggerCall) (now t : Int) (st : LoggerState)
    (arg : EvLogArg) (appJson : String) (est : EvLoggerState) :
    (∃ ev : LogEvent,
      (LoggerImpl.run c now st).1.logQueue = st.logQueue ++ [ev] ∧
      ev.elapsedTime = 0 ∧ ev.date = now ∧
      (LoggerImpl.run c now st).2 = st.logQueue.length ∧
      (invokeLogCallback (LoggerImpl.run c now st).1 (LoggerImpl.run c now st).2 t).logQueue
        = st.logQueue ++ [{ ev with elapsedTime := t - now }]) ∧
    (∃ ev : EvLogEvent,
      (EventLogger.log now appJson arg est).1.logQueue = est.logQueue ++ [ev] ∧
      ev.elapsedTime = 0 ∧ ev.date = now ∧
      (EventLogger.log now appJson arg est).2 = est.logQueue.length ∧
      (EventLogger.invokeCallback (EventLogger.log now appJson arg est).1
          (EventLogger.log now appJson arg est).2 t).logQueue
        = est.logQueue ++ [{ ev with elapsedTime := t - now }]) := by
  constructor
  · cases c with
    | infoC a i =>
        exact ⟨_, rfl, rfl, rfl, rfl, invokeLogCallback_append st.environmentContext st.logQueue _ t⟩
    | warnC e a i =>
        exact ⟨_, rfl, rfl, rfl, rfl, invokeLogCallback_append st.environmentContext st.logQueue _ t⟩
    | errorC e a i =>
        exact ⟨_, rfl, rfl, rfl, rfl, invokeLogCallback_append st.environmentContext st.logQueue _ t⟩
    | exceptionC j e =>
        cases e with
        | networkConnection msg =>
            exact ⟨_, rfl, rfl, rfl, rfl, invokeLogCallback_append st.environmentContext st.logQueue _ t⟩
        | api msg s url ec ei =>
            exact ⟨_, rfl, rfl, rfl, rfl, invokeLogCallback_append st.environmentContext st.logQueue _ t⟩
        | reactLifecycle msg stk =>
            exact ⟨_, rfl, rfl, rfl, rfl, invokeLogCallback_append st.environmentContext st.logQueue _ t⟩
        | runtime msg eo =>
            exact ⟨_, rfl, rfl, rfl, rfl, invokeLogCallback_append st.environmentContext st.logQueue _ t⟩
        | other msg =>
            exact ⟨_, rfl, rfl, rfl, rfl, invokeLogCallback_append st.environmentContext st.logQueue _ t⟩
  · cases arg with
    | strArg a i =>
        exact ⟨_, rfl, rfl, rfl, rfl, evInvokeCallback_append est.environmentContext _ est.logQueue _ t⟩
    | excArg e =>
        cases e with
        | networkConnection msg =>
            exact ⟨_, rfl, rfl, rfl, rfl, evInvokeCallback_append est.environmentContext _ est.logQueue _ t⟩
        | api msg s url ec ei =>
            exact ⟨_, rfl, rfl, rfl, rfl, evInvokeCallback_append est.environmentContext _ est.logQueue _ t⟩
        | reactLifecycle msg stk =>
            exact ⟨_, rfl, rfl, rfl, rfl, evInvokeCallback_append est.environmentContext _ est.logQueue _ t⟩
        | runtime msg eo =>
            exact ⟨_, rfl, rfl, rfl, rfl, evInvokeCallback_append est.environmentContext _ est.logQueue _ t⟩
        | other msg =>
            exact ⟨_, rfl, rfl, rfl, rfl, evInvokeCallback_append est.environmentContext _ est.logQueue _ t⟩

/-- C10: invoking a completion callback again is permitted: each invocation
overwrites, in place, the `elapsedTime` of the same queued event with the
delta measured at that invocation — the queue after an invocation is exactly
the old queue with that one entry's `elapsedTime` replaced (same length, same
order, all other fields and events untouched), and a second invocation gives
the same state as if only it had happened (last call wins). Both logger
variants behave this way. -/
theorem log_callback_overwrite (st : LoggerState) (idx : Nat) (ev : LogEvent)
    (h : st.logQueue[idx]? = some ev) (t t' : Int) (est : EvLoggerState) (jdx : Nat)
    (ev2 : EvLogEvent) (h2 : est.logQueue[jdx]? = some ev2) :
    (invokeLogCallback st idx t).logQueue
      = st.logQueue.set idx { ev with elapsedTime := t - ev.date } ∧
    invokeLogCallback (invokeLogCallback st idx t) idx t'
      = invokeLogCallback st idx t' ∧
    (EventLogger.invokeCallback est jdx t).logQueue
      = est.logQueue.set jdx { ev2 with elapsedTime := t - ev2.date } ∧
    EventLogger.invokeCallback (EventLogger.invokeCallback est jdx t) jdx t'
      = EventLogger.invokeCallback est jdx t' := by
  have hlt : idx < st.logQueue.length := (List.getElem?_eq_some.mp h).1
  have hlt2 : jdx < est.logQueue.length := (List.getElem?_eq_some.mp h2).1
  refine ⟨?_, ?_, ?_, ?_⟩
  · unfold invokeLogCallback
    rw [h]
  · unfold invokeLogCallback
    rw [h]
    have hset : (st.logQueue.set idx { ev with elapsedTime := t - ev.date })[idx]?
        = some { ev with elapsedTime := t - ev.date } := by
      simp [List.getElem?_set_self, hlt]
    rw [hset]
    simp [List.set_set]
  · unfold EventLogger.invokeCallback
    rw [h2]
  · unfold EventLogger.invokeCallback
    rw [h2]
    have hset : (est.logQueue.set jdx { ev2 with elapsedTime := t - ev2.date })[jdx]?
        = some { ev2 with elapsedTime := t - ev2.date } := by
      simp [List.getElem?_set_self, hlt2]
    rw [hset]
    simp [List.set_set]

theorem log_callback_overwrite_witness :
    (invokeLogCallback stW 0 5).logQueue
      = stW.logQueue.set 0 { evW with elapsedTime := 5 - evW.date } ∧
    invokeLogCallback (invokeLogCallback stW 0 5) 0 9 = invokeLogCallback stW 0 9 ∧
    (EventLogger.invokeCallback estW 0 5).logQueue
      = estW.logQueue.set 0 { evW2 with elapsedTime := 5 - evW2.date } ∧
    EventLogger.invokeCallback (EventLogger.invokeCallback estW 0 5) 0 9
      = EventLogger.invokeCallback estW 0 9 :=
  log_callback_overwrite stW 0 evW rfl 5 9 estW 0 evW2 rfl
